import Mathlib

/-!
Verification of the MHT-CET cutoff assistant.

The repository consists of an offline scraper (`scraper.py`) that builds a
dataset of college cutoff records, and a serving application (`app.py`) that
answers rank/percentile queries against that dataset.  This file gives a
shallow embedding of the data model and the pure computational core of both
programs and proves the specification claims about them.

Conventions of the embedding:
* Python strings are modelled as lists of Unicode code points (`Text`);
  `str.lower`, `str.upper` and `str.title` act on the ASCII letter range,
  exactly as Lean's own `Char.toLower`/`Char.toUpper` do.
* Python floats are modelled as rationals (`ℚ`).  `round(x, 4)` is modelled
  by `round4`, which rounds `x * 10^4` to the nearest integer (Python uses
  round-half-to-even on exact ties; no formula proved here can hit an exact
  tie at a reachable input, see the denominator arguments in the proofs).
* pandas DataFrames are modelled as lists of records; `sort_values` is
  modelled deterministically by `List.insertionSort`, and — because the
  source's default `kind='quicksort'` is not stable, leaving the order of
  rows tied on all sort keys unspecified — also relationally by the
  `PipelineRun` predicate, which admits every key-ordered arrangement;
  `drop_duplicates(keep='first')` is modelled by `dedupRecords`.
* Randomness (`random.uniform(0, 1.5)` in the mock-data generator) is
  modelled by an explicit perturbation function passed as a parameter.
-/

/-- Strings are modelled as their sequence of Unicode code points. -/
abbrev Text := List Nat

/-- Embed a Lean string literal as a `Text`. -/
def txt (s : String) : Text := s.data.map Char.toNat

/-- ASCII lower-casing of one code point (Python `str.lower` on ASCII). -/
def lowerC (n : Nat) : Nat := if 65 ≤ n ∧ n ≤ 90 then n + 32 else n

/-- ASCII upper-casing of one code point (Python `str.upper` on ASCII). -/
def upperC (n : Nat) : Nat := if 97 ≤ n ∧ n ≤ 122 then n - 32 else n

/-- Is the code point an ASCII letter (a cased character)? -/
def isAlphaB (n : Nat) : Bool := decide ((65 ≤ n ∧ n ≤ 90) ∨ (97 ≤ n ∧ n ≤ 122))

/-- Python `str.lower` over the ASCII range. -/
def lowerStr (t : Text) : Text := t.map lowerC

/-- Python `str.upper` over the ASCII range. -/
def upperStr (t : Text) : Text := t.map upperC

/-- Worker for `titleStr`: `prev` records whether the previous character was
a cased (alphabetic) one; a cased character after an uncased one is
upper-cased, any other character after a cased one is lower-cased. -/
def titleAux : Bool → Text → Text
  | _, [] => []
  | prev, c :: cs => (if prev then lowerC c else upperC c) :: titleAux (isAlphaB c) cs

/-- Python `str.title` over the ASCII range. -/
def titleStr (t : Text) : Text := titleAux false t

/-- Does `needle` occur at the very start of `hay`? -/
def startsWithT : Text → Text → Bool
  | [], _ => true
  | _ :: _, [] => false
  | a :: as, b :: bs => a == b && startsWithT as bs

/-- Python's `needle in hay` substring containment. -/
def containsT (needle : Text) : Text → Bool
  | [] => needle.isEmpty
  | h :: t => startsWithT needle (h :: t) || containsT needle t

/-- Is the code point ASCII whitespace (the characters `str.strip` removes)? -/
def isSpaceB (n : Nat) : Bool := n == 32 || n == 9 || n == 10 || n == 11 || n == 12 || n == 13

/-- Python `str.strip`: drop leading and trailing whitespace. -/
def stripText (t : Text) : Text :=
  ((t.dropWhile isSpaceB).reverse.dropWhile isSpaceB).reverse

/-- `MHTCETScraper._standardize_branch_name`: lower-case the input, try the
keyword rules in their source order, and fall back to title-casing the
(lowered) input. -/
def standardize_branch_name (branch : Text) : Text :=
  if containsT (txt "computer") (lowerStr branch) then txt "Computer Engineering"
  else if containsT (txt "information technology") (lowerStr branch)
      || containsT (txt "it") (lowerStr branch) then txt "Information Technology"
  else if containsT (txt "electronics") (lowerStr branch)
      && containsT (txt "telecommunication") (lowerStr branch) then
    txt "Electronics and Telecommunication Engineering"
  else if containsT (txt "mechanical") (lowerStr branch) then txt "Mechanical Engineering"
  else if containsT (txt "civil") (lowerStr branch) then txt "Civil Engineering"
  else if containsT (txt "electrical") (lowerStr branch) then txt "Electrical Engineering"
  else titleStr (lowerStr branch)

/-- Modelled from the claim's words (C7): the same ordered case-insensitive
substring rules, but with the fallback described as "the input title-cased"
(rather than the source's title-casing of the already lowered input). -/
def standardize_branch_spec (branch : Text) : Text :=
  if containsT (txt "computer") (lowerStr branch) then txt "Computer Engineering"
  else if containsT (txt "information technology") (lowerStr branch)
      || containsT (txt "it") (lowerStr branch) then txt "Information Technology"
  else if containsT (txt "electronics") (lowerStr branch)
      && containsT (txt "telecommunication") (lowerStr branch) then
    txt "Electronics and Telecommunication Engineering"
  else if containsT (txt "mechanical") (lowerStr branch) then txt "Mechanical Engineering"
  else if containsT (txt "civil") (lowerStr branch) then txt "Civil Engineering"
  else if containsT (txt "electrical") (lowerStr branch) then txt "Electrical Engineering"
  else titleStr branch

/-- The six canonical branch labels of the classifier. -/
def canonicalBranches : List Text :=
  [txt "Computer Engineering", txt "Information Technology",
   txt "Electronics and Telecommunication Engineering", txt "Mechanical Engineering",
   txt "Civil Engineering", txt "Electrical Engineering"]

/-- One candidate record as produced by the source parsers and consumed by
`save_data`.  Fields are `Option`s because pandas `dropna` distinguishes
missing (NaN) values; a parser-produced record has every field present. -/
structure RawRecord where
  college : Option Text
  branch : Option Text
  cutoff_percentile : Option ℚ
  category : Option Text
  source : Option Text
deriving DecidableEq

/-- Does the record have the three essential fields (`dropna` subset)? -/
def completeB (r : RawRecord) : Bool :=
  r.college.isSome && r.branch.isSome && r.cutoff_percentile.isSome

/-- Re-run the branch classifier on the record's branch
(`df['branch'].apply(self._standardize_branch_name)`). -/
def stdRec (r : RawRecord) : RawRecord :=
  { r with branch := r.branch.map standardize_branch_name }

/-- The deduplication key `(college, branch, category)`. -/
def recKey (r : RawRecord) : Option Text × Option Text × Option Text :=
  (r.college, r.branch, r.category)

/-- Sort key: the cutoff percentile (defaulted; every sorted record has one). -/
def cutK (r : RawRecord) : ℚ := r.cutoff_percentile.getD 0

/-- Sort key: the college name (defaulted; every sorted record has one). -/
def colK (r : RawRecord) : Text := r.college.getD []

/-- Sort key: the branch name (defaulted; every sorted record has one). -/
def braK (r : RawRecord) : Text := r.branch.getD []

/-- Ordering of `df.sort_values('cutoff_percentile', ascending=False)`:
descending cutoff percentile. -/
def rDesc (a b : RawRecord) : Prop := cutK b ≤ cutK a

instance : DecidableRel rDesc := fun a b => inferInstanceAs (Decidable (cutK b ≤ cutK a))

instance : IsTotal RawRecord rDesc := ⟨fun a b => le_total (cutK b) (cutK a)⟩

instance : IsTrans RawRecord rDesc := ⟨fun _ _ _ h1 h2 => le_trans h2 h1⟩

/-- Tie-break ordering on (college ascending, branch ascending). -/
def innerLe (a b : RawRecord) : Prop :=
  colK a < colK b ∨ (colK a = colK b ∧ braK a ≤ braK b)

/-- Ordering of the final
`df.sort_values(['cutoff_percentile', 'college', 'branch'],
ascending=[False, True, True])`: cutoff percentile descending, then college
ascending, then branch ascending. -/
def finalLe (a b : RawRecord) : Prop :=
  cutK b < cutK a ∨ (cutK b = cutK a ∧ innerLe a b)

instance : DecidableRel innerLe := fun a b => by unfold innerLe; infer_instance

instance : DecidableRel finalLe := fun a b => by unfold finalLe innerLe; infer_instance

instance : IsTotal RawRecord finalLe where
  total a b := by
    unfold finalLe
    rcases lt_trichotomy (cutK b) (cutK a) with h | h | h
    · exact Or.inl (Or.inl h)
    · have hi : innerLe a b ∨ innerLe b a := by
        unfold innerLe
        rcases lt_trichotomy (colK a) (colK b) with h2 | h2 | h2
        · exact Or.inl (Or.inl h2)
        · rcases le_total (braK a) (braK b) with hb | hb
          · exact Or.inl (Or.inr ⟨h2, hb⟩)
          · exact Or.inr (Or.inr ⟨h2.symm, hb⟩)
        · exact Or.inr (Or.inl h2)
      rcases hi with hi | hi
      · exact Or.inl (Or.inr ⟨h, hi⟩)
      · exact Or.inr (Or.inr ⟨h.symm, hi⟩)
    · exact Or.inr (Or.inl h)

instance : IsTrans RawRecord finalLe where
  trans a b c h1 h2 := by
    have hinner : innerLe a b → innerLe b c → innerLe a c := by
      intro hxy hyz
      unfold innerLe at *
      rcases hxy with hxy | ⟨e1, hxy⟩
      · rcases hyz with hyz | ⟨e2, hyz⟩
        · exact Or.inl (lt_trans hxy hyz)
        · exact Or.inl (e2 ▸ hxy)
      · rcases hyz with hyz | ⟨e2, hyz⟩
        · exact Or.inl (e1 ▸ hyz)
        · exact Or.inr ⟨e1.trans e2, le_trans hxy hyz⟩
    unfold finalLe at *
    rcases h1 with h1 | ⟨e1, h1⟩
    · rcases h2 with h2 | ⟨e2, h2⟩
      · exact Or.inl (lt_trans h2 h1)
      · exact Or.inl (e2 ▸ h1)
    · rcases h2 with h2 | ⟨e2, h2⟩
      · exact Or.inl (lt_of_lt_of_le h2 (le_of_eq e1))
      · exact Or.inr ⟨e2.trans e1, hinner h1 h2⟩

/-- `drop_duplicates(subset=['college', 'branch', 'category'], keep='first')`:
keep the first record carrying each key, scanning left to right. `seen` is
the set of keys already emitted. -/
def dedupAux (seen : List (Option Text × Option Text × Option Text)) :
    List RawRecord → List RawRecord
  | [] => []
  | x :: xs =>
    if recKey x ∈ seen then dedupAux seen xs
    else x :: dedupAux (recKey x :: seen) xs

/-- Deduplicate a record list on `(college, branch, category)`, keeping the
first occurrence of each key. -/
def dedupRecords (l : List RawRecord) : List RawRecord := dedupAux [] l

/-- Step 1 and 2 of `save_data`: drop records with missing essential fields,
then re-standardize every branch name. -/
def processedRecords (data : List RawRecord) : List RawRecord :=
  (data.filter completeB).map stdRec

/-- The full `save_data` cleaning pipeline: drop incomplete records,
re-classify branches, sort by cutoff descending, deduplicate keeping the
first (best) record per key, and sort for final presentation. -/
def pipeline (data : List RawRecord) : List RawRecord :=
  List.insertionSort finalLe
    (dedupRecords (List.insertionSort rDesc (processedRecords data)))

/-- `MHTCETScraper.save_data`: returns `none` (source: logs an error and
returns `False`) on empty input, otherwise persists the cleaned dataset. -/
def save_data (data : List RawRecord) : Option (List RawRecord) :=
  if data.isEmpty then none else some (pipeline data)

/-- A complete sample record used by witnesses. -/
def sampleRaw : RawRecord :=
  ⟨some (txt "Alpha College"), some (txt "Computer Engineering"), some 90,
   some (txt "General"), some (txt "seed")⟩

/-- A record agreeing with `sampleRaw` on all three sort keys (cutoff,
college, branch) but carrying a different category, so both survive
deduplication and tie on every final sort key. -/
def tieOther : RawRecord :=
  ⟨some (txt "Alpha College"), some (txt "Computer Engineering"), some 90,
   some (txt "OBC"), some (txt "seed")⟩

/-- Two records tie on every key of the final display sort. -/
def sortKeysTie (a b : RawRecord) : Prop :=
  cutK a = cutK b ∧ colK a = colK b ∧ braK a = braK b

/-- One admissible run of the `save_data` cleaning pipeline when the two
`sort_values` calls are given only their contract — some arrangement of the
rows ordered by the sort keys.  pandas' default `kind='quicksort'` is not
stable, so the relative order of rows tied on all sort keys is unspecified:
`mid` is any descending-by-cutoff arrangement of the processed records, and
the output is any final-display-ordered arrangement of its deduplication. -/
def PipelineRun (data out : List RawRecord) : Prop :=
  ∃ mid, mid.Perm (processedRecords data) ∧ mid.Sorted rDesc ∧
    out.Perm (dedupRecords mid) ∧ out.Sorted finalLe

/-- Python `round(x, 4)`: round to four decimal places. -/
def round4 (x : ℚ) : ℚ := (round (x * 10000) : ℤ) / 10000

/-- `MHTCETScraper._get_base_percentile` without its random term: the tiered
base (96 elite, 92 mid, 85 otherwise, by substring tests on the college
name) plus the branch bonus (+3.5 Computer, +3.0 Information Technology,
+1.5 Electronics, +0 otherwise). -/
def get_base_percentile (college branch : Text) : ℚ :=
  (if containsT (txt "VJTI") college || containsT (txt "CoEP") college
      || containsT (txt "Sardar Patel") college then (96 : ℚ)
   else if containsT (txt "Walchand") college || containsT (txt "MIT") college
      || containsT (txt "Vishwakarma") college then 92
   else 85)
  + (if containsT (txt "Computer") branch then (3.5 : ℚ)
     else if containsT (txt "Information Technology") branch then 3
     else if containsT (txt "Electronics") branch then 1.5
     else 0)

/-- The fixed college roster of `generate_mock_data`. -/
def mockColleges : List Text :=
  [txt "Veermata Jijabai Technological Institute (VJTI), Mumbai",
   txt "College of Engineering, Pune (CoEP)",
   txt "Sardar Patel Institute of Technology, Mumbai",
   txt "Walchand College of Engineering, Sangli",
   txt "MIT Academy of Engineering, Pune",
   txt "Vishwakarma Institute of Technology, Pune",
   txt "Thadomal Shahani Engineering College, Mumbai",
   txt "Government College of Engineering, Aurangabad"]

/-- The fixed branch roster of `generate_mock_data`. -/
def mockBranches : List Text :=
  [txt "Computer Engineering", txt "Information Technology",
   txt "Electronics and Telecommunication Engineering", txt "Mechanical Engineering",
   txt "Civil Engineering"]

/-- One mock record: cutoff is the base percentile minus the perturbation,
clamped to `[85, 99.9]` and rounded to 4 decimals; category `General`,
source marker `mock_data`. -/
def mkMockRecord (c b : Text) (noise : ℚ) : RawRecord :=
  ⟨some c, some b,
   some (round4 (max 85 (min 99.9 (get_base_percentile c b - noise)))),
   some (txt "General"), some (txt "mock_data")⟩

/-- `MHTCETScraper.generate_mock_data`, with the per-record draw of
`random.uniform(0, 1.5)` supplied as the explicit function `noise`. -/
def generate_mock_data (noise : Text → Text → ℚ) : List RawRecord :=
  mockColleges.flatMap (fun c => mockBranches.map (fun b => mkMockRecord c b (noise c b)))

/-- `MHTCETScraper.run`: scrape (the scraped records are a parameter here),
fall back to mock data when scraping yielded nothing, then persist. -/
def runScraper (scraped : List RawRecord) (noise : Text → Text → ℚ) :
    Option (List RawRecord) :=
  save_data (if scraped.isEmpty then generate_mock_data noise else scraped)

/-- The zero perturbation function, used by the C9 witness. -/
def zeroNoise : Text → Text → ℚ := fun _ _ => 0

/-- `MHTCETAssistant.rank_to_percentile`: rank ≤ 0 maps to 100, otherwise
`(1 - rank/total) * 100` clamped (source order: `max(0, min(100, ·))`) and
rounded to 4 decimals. -/
def rank_to_percentile (rank : ℤ) (total_candidates : ℚ := 350000) : ℚ :=
  if rank ≤ 0 then 100
  else round4 (max 0 (min 100 ((1 - (rank : ℚ) / total_candidates) * 100)))

/-- Modelled from the claim's words (C3): the same formula with the clamps
written in the claim's order `min(100, max(0, ·))`. -/
def percentileSpecFormula (r : ℤ) : ℚ :=
  round4 (min 100 (max 0 ((1 - (r : ℚ) / 350000) * 100)))

/-- `MHTCETAssistant.predict_admission_chance`: bucket the difference
`user_percentile - cutoff_percentile` through the fixed thresholds, first
match wins. -/
def predict_admission_chance (user_percentile cutoff_percentile : ℚ) : Text :=
  if 2 ≤ user_percentile - cutoff_percentile then txt "Very High"
  else if 0.5 ≤ user_percentile - cutoff_percentile then txt "High"
  else if -0.75 ≤ user_percentile - cutoff_percentile then txt "Medium (Borderline)"
  else if -2.5 ≤ user_percentile - cutoff_percentile then txt "Low"
  else txt "Unlikely"

/-- The five fixed admission-chance labels, best first. -/
def chanceLabels : List Text :=
  [txt "Very High", txt "High", txt "Medium (Borderline)", txt "Low", txt "Unlikely"]

/-- Numeric quality of a label: larger is better, unknown text counts 0. -/
def chanceRank (t : Text) : ℕ :=
  if t = txt "Very High" then 4
  else if t = txt "High" then 3
  else if t = txt "Medium (Borderline)" then 2
  else if t = txt "Low" then 1
  else 0

/-- One row of the serving dataset as loaded by `app.py` (the fields the
suggestion and prediction paths read). -/
structure AppRecord where
  college : Text
  branch : Text
  category : Text
  cutoff_percentile : ℚ
deriving DecidableEq

/-- The payload of `suggest_colleges`. -/
structure SuggestOut where
  safe : List AppRecord
  ambitious : List AppRecord
  user_percentile : ℚ
deriving DecidableEq

/-- `sort_values(by='cutoff_percentile', ascending=False)` ordering. -/
def rDescApp (a b : AppRecord) : Prop := b.cutoff_percentile ≤ a.cutoff_percentile

/-- `sort_values(by='cutoff_percentile', ascending=True)` ordering. -/
def rAscApp (a b : AppRecord) : Prop := a.cutoff_percentile ≤ b.cutoff_percentile

instance : DecidableRel rDescApp :=
  fun a b => inferInstanceAs (Decidable (b.cutoff_percentile ≤ a.cutoff_percentile))

instance : DecidableRel rAscApp :=
  fun a b => inferInstanceAs (Decidable (a.cutoff_percentile ≤ b.cutoff_percentile))

instance : IsTotal AppRecord rDescApp :=
  ⟨fun a b => le_total b.cutoff_percentile a.cutoff_percentile⟩

instance : IsTrans AppRecord rDescApp := ⟨fun _ _ _ h1 h2 => le_trans h2 h1⟩

instance : IsTotal AppRecord rAscApp :=
  ⟨fun a b => le_total a.cutoff_percentile b.cutoff_percentile⟩

instance : IsTrans AppRecord rAscApp := ⟨fun _ _ _ h1 h2 => le_trans h1 h2⟩

/-- `self.df_colleges[self.df_colleges['category'].str.upper() == "GENERAL"]`. -/
def generalOnly (d : List AppRecord) : List AppRecord :=
  d.filter (fun r => upperStr r.category = txt "GENERAL")

/-- `MHTCETAssistant.suggest_colleges`: on an empty dataset report percentile
0 and empty lists; otherwise filter to the General category, split at the
user percentile, sort each side (safe descending, ambitious ascending) and
truncate to `limit`. -/
def suggest_colleges (d : List AppRecord) (user_rank : ℤ) (limit : ℕ := 7) : SuggestOut :=
  if d.isEmpty then ⟨[], [], 0⟩
  else if (generalOnly d).isEmpty then ⟨[], [], rank_to_percentile user_rank⟩
  else
    ⟨(List.insertionSort rDescApp
        ((generalOnly d).filter
          (fun r => r.cutoff_percentile ≤ rank_to_percentile user_rank))).take limit,
     (List.insertionSort rAscApp
        ((generalOnly d).filter
          (fun r => rank_to_percentile user_rank < r.cutoff_percentile))).take limit,
     rank_to_percentile user_rank⟩

/-- The response of the `/suggest` route: a success payload or an error
payload carrying only a human-readable message. -/
inductive SuggestResponse where
  | ok (payload : SuggestOut)
  | error (msg : Text)
deriving DecidableEq

/-- `handle_suggest`: a non-numeric rank raises `ValueError` in
`int(data.get('rank', 0))` and is answered with a format error; a
non-positive rank is answered with a validity error; otherwise the
suggestion payload is returned. -/
def handle_suggest (rank_input : Option ℤ) (d : List AppRecord) : SuggestResponse :=
  match rank_input with
  | none => SuggestResponse.error (txt "Invalid rank format. Please enter a number.")
  | some rank =>
    if rank ≤ 0 then SuggestResponse.error (txt "Please provide a valid rank.")
    else SuggestResponse.ok (suggest_colleges d rank)

/-- Is the response an error payload? -/
def isErrorResponse : SuggestResponse → Bool
  | SuggestResponse.error _ => true
  | SuggestResponse.ok _ => false

/-- The response of the `/predict` route. -/
inductive PredictResult where
  | formatError
  | invalidInput
  | notFound
  | ok (college branch : Text) (cutoff : ℚ) (chance : Text)
deriving DecidableEq

/-- The match predicate of `handle_predict`:
`df['college'].str.contains(college_query, case=False, na=False)`, modelled
as case-insensitive literal substring containment.  pandas interprets the
query as a regular expression, so this model is faithful exactly on queries
containing no regex metacharacter (`regexLiteralB`); theorems about the
lookup path therefore carry that hypothesis. -/
def matchesQuery (q : Text) (r : AppRecord) : Bool :=
  containsT (lowerStr q) (lowerStr r.college)

/-- The code points of the characters Python's `re` module treats as
metacharacters: `. ^ $ * + ? { } [ ] \ | ( )`. -/
def regexMetaChars : Text :=
  [46, 94, 36, 42, 43, 63, 123, 125, 91, 93, 92, 124, 40, 41]

/-- Does the text contain no regex metacharacter?  On such a pattern,
`re`-based containment is literal substring containment. -/
def regexLiteralB (t : Text) : Bool :=
  t.all (fun c => !(regexMetaChars.contains c))

/-- `handle_predict`: a non-numeric percentile is a format error; an empty
(stripped) query or a non-positive percentile is an invalid-input error;
otherwise the matching record with the highest cutoff is reported together
with its admission-chance label. -/
def handle_predict (percentile_input : Option ℚ) (college_raw : Text)
    (d : List AppRecord) : PredictResult :=
  match percentile_input with
  | none => PredictResult.formatError
  | some percentile =>
    if stripText college_raw = [] ∨ percentile ≤ 0 then PredictResult.invalidInput
    else
      match List.insertionSort rDescApp
          (d.filter (fun r => matchesQuery (stripText college_raw) r)) with
      | [] => PredictResult.notFound
      | best :: _ =>
        PredictResult.ok best.college best.branch best.cutoff_percentile
          (predict_admission_chance percentile best.cutoff_percentile)

/-- The VJTI record of the specification's scenario dataset. -/
def vjtiRec : AppRecord := ⟨txt "VJTI", txt "Computer Engineering", txt "General", 96.5⟩

/-- The CoEP record of the specification's scenario dataset. -/
def coepRec : AppRecord := ⟨txt "CoEP", txt "Mechanical Engineering", txt "General", 91.2⟩

/-- The specification's two-record scenario dataset. -/
def scenarioData : List AppRecord := [vjtiRec, coepRec]

/-- Lower-casing a code point twice is the same as once. -/
theorem lowerC_lowerC (c : Nat) : lowerC (lowerC c) = lowerC c := by
  unfold lowerC; split_ifs <;> omega

/-- Lower-casing after upper-casing is plain lower-casing. -/
theorem lowerC_upperC (c : Nat) : lowerC (upperC c) = lowerC c := by
  unfold lowerC upperC; split_ifs <;> omega

/-- Upper-casing after lower-casing is plain upper-casing. -/
theorem upperC_lowerC (c : Nat) : upperC (lowerC c) = upperC c := by
  unfold lowerC upperC; split_ifs <;> omega

/-- Lower-casing preserves being an ASCII letter. -/
theorem isAlphaB_lowerC (c : Nat) : isAlphaB (lowerC c) = isAlphaB c := by
  unfold isAlphaB lowerC
  split_ifs with h
  · exact decide_eq_decide.mpr (by omega)
  · rfl

/-- Upper-casing preserves being an ASCII letter. -/
theorem isAlphaB_upperC (c : Nat) : isAlphaB (upperC c) = isAlphaB c := by
  unfold isAlphaB upperC
  split_ifs with h
  · exact decide_eq_decide.mpr (by omega)
  · rfl

/-- Lower-casing a text twice is the same as once. -/
theorem lowerStr_idem (t : Text) : lowerStr (lowerStr t) = lowerStr t := by
  unfold lowerStr
  rw [List.map_map]
  exact List.map_congr_left (fun c _ => lowerC_lowerC c)

/-- Title-casing ignores the original casing of the text. -/
theorem titleAux_lowerStr (t : Text) : ∀ prev, titleAux prev (lowerStr t) = titleAux prev t := by
  induction t with
  | nil => intro prev; rfl
  | cons c cs ih =>
    intro prev
    show titleAux prev (lowerC c :: lowerStr cs) = titleAux prev (c :: cs)
    unfold titleAux
    rw [isAlphaB_lowerC, ih]
    cases prev
    · simp [upperC_lowerC]
    · simp [lowerC_lowerC]

/-- Title-casing of the lower-cased text equals title-casing of the text. -/
theorem titleStr_lowerStr (t : Text) : titleStr (lowerStr t) = titleStr t :=
  titleAux_lowerStr t false

/-- Lower-casing erases the effect of title-casing. -/
theorem lowerStr_titleAux (t : Text) : ∀ prev, lowerStr (titleAux prev t) = lowerStr t := by
  induction t with
  | nil => intro prev; rfl
  | cons c cs ih =>
    intro prev
    unfold titleAux
    show lowerC (if prev then lowerC c else upperC c) :: lowerStr (titleAux (isAlphaB c) cs)
      = lowerC c :: lowerStr cs
    rw [ih]
    cases prev
    · simp [lowerC_upperC]
    · simp [lowerC_lowerC]

/-- Lower-casing after title-casing is plain lower-casing. -/
theorem lowerStr_titleStr (t : Text) : lowerStr (titleStr t) = lowerStr t :=
  lowerStr_titleAux t false

/-- Shape of the classifier's result: either one of the six canonical labels,
or the title-cased fallback together with the falsity of every keyword rule. -/
theorem standardize_shape (t : Text) :
    standardize_branch_name t ∈ canonicalBranches ∨
    (standardize_branch_name t = titleStr (lowerStr t) ∧
     containsT (txt "computer") (lowerStr t) = false ∧
     (containsT (txt "information technology") (lowerStr t)
       || containsT (txt "it") (lowerStr t)) = false ∧
     (containsT (txt "electronics") (lowerStr t)
       && containsT (txt "telecommunication") (lowerStr t)) = false ∧
     containsT (txt "mechanical") (lowerStr t) = false ∧
     containsT (txt "civil") (lowerStr t) = false ∧
     containsT (txt "electrical") (lowerStr t) = false) := by
  unfold standardize_branch_name
  split_ifs with h1 h2 h3 h4 h5 h6
  · left; simp [canonicalBranches]
  · left; simp [canonicalBranches]
  · left; simp [canonicalBranches]
  · left; simp [canonicalBranches]
  · left; simp [canonicalBranches]
  · left; simp [canonicalBranches]
  · right
    exact ⟨rfl, by simpa using h1, by simpa using h2, by simpa using h3,
      by simpa using h4, by simpa using h5, by simpa using h6⟩

/-- The branch classifier is idempotent. -/
theorem standardize_idem (t : Text) :
    standardize_branch_name (standardize_branch_name t) = standardize_branch_name t := by
  rcases standardize_shape t with hmem | ⟨hf, c1, c2, c3, c4, c5, c6⟩
  · simp only [canonicalBranches, List.mem_cons, List.not_mem_nil, or_false] at hmem
    rcases hmem with h | h | h | h | h | h <;> rw [h] <;> decide
  · rw [hf]
    have hl : lowerStr (titleStr (lowerStr t)) = lowerStr t := by
      rw [lowerStr_titleStr, lowerStr_idem]
    unfold standardize_branch_name
    rw [hl]
    simp [c1, c2, c3, c4, c5, c6]

/-- The final display ordering is (weakly) descending in the cutoff. -/
theorem finalLe_imp_rDesc {a b : RawRecord} (h : finalLe a b) : rDesc a b := by
  unfold finalLe at h
  rcases h with h | ⟨e, _⟩
  · exact le_of_lt h
  · exact le_of_eq e

/-- Members of the deduplicated list come from the original list. -/
theorem mem_of_mem_dedupAux {r : RawRecord} :
    ∀ (l : List RawRecord) (seen), r ∈ dedupAux seen l → r ∈ l := by
  intro l
  induction l with
  | nil => intro seen h; exact absurd h (List.not_mem_nil r)
  | cons x xs ih =>
    intro seen h
    unfold dedupAux at h
    split_ifs at h with hx
    · exact List.mem_cons_of_mem x (ih seen h)
    · rcases List.mem_cons.mp h with h | h
      · exact h ▸ List.mem_cons_self x xs
      · exact List.mem_cons_of_mem x (ih (recKey x :: seen) h)

/-- No key of the deduplicated output was already in `seen`. -/
theorem key_not_seen_of_mem_dedupAux {r : RawRecord} :
    ∀ (l : List RawRecord) (seen), r ∈ dedupAux seen l → recKey r ∉ seen := by
  intro l
  induction l with
  | nil => intro seen h; exact absurd h (List.not_mem_nil r)
  | cons x xs ih =>
    intro seen h
    unfold dedupAux at h
    split_ifs at h with hx
    · exact ih seen h
    · rcases List.mem_cons.mp h with h | h
      · exact h ▸ hx
      · intro hc
        exact ih (recKey x :: seen) h (List.mem_cons_of_mem _ hc)

/-- The deduplicated output has pairwise distinct keys. -/
theorem dedupAux_pairwise :
    ∀ (l : List RawRecord) (seen),
      (dedupAux seen l).Pairwise (fun a b => recKey a ≠ recKey b) := by
  intro l
  induction l with
  | nil => intro seen; exact List.Pairwise.nil
  | cons x xs ih =>
    intro seen
    unfold dedupAux
    split_ifs with hx
    · exact ih seen
    · refine List.pairwise_cons.mpr ⟨?_, ih (recKey x :: seen)⟩
      intro b hb he
      exact key_not_seen_of_mem_dedupAux xs (recKey x :: seen) hb
        (he ▸ List.mem_cons_self _ _)

/-- On a list sorted by descending cutoff, the retained record of each key
carries the maximal cutoff among all records with that key. -/
theorem dedupAux_max {r s : RawRecord} :
    ∀ (l : List RawRecord) (seen), l.Sorted rDesc → r ∈ dedupAux seen l →
      s ∈ l → recKey s = recKey r → cutK s ≤ cutK r := by
  intro l
  induction l with
  | nil => intro seen _ _ hs; exact absurd hs (List.not_mem_nil s)
  | cons x xs ih =>
    intro seen hsort hr hs hkey
    have hhead : ∀ y ∈ xs, cutK y ≤ cutK x := (List.pairwise_cons.mp hsort).1
    have htail : xs.Sorted rDesc := (List.pairwise_cons.mp hsort).2
    unfold dedupAux at hr
    split_ifs at hr with hx
    · rcases List.mem_cons.mp hs with hsx | hsx
      · exfalso
        have : recKey r ∉ seen := key_not_seen_of_mem_dedupAux xs seen hr
        exact this (hkey ▸ hsx ▸ hx)
      · exact ih seen htail hr hsx hkey
    · rcases List.mem_cons.mp hr with hrx | hrx
      · rcases List.mem_cons.mp hs with hsx | hsx
        · exact le_of_eq (by rw [hsx, hrx])
        · exact hrx ▸ hhead s hsx
      · have hrkey : recKey r ∉ recKey x :: seen :=
          key_not_seen_of_mem_dedupAux xs (recKey x :: seen) hrx
        rcases List.mem_cons.mp hs with hsx | hsx
        · exfalso
          exact hrkey (by rw [← hkey, hsx]; exact List.mem_cons_self _ _)
        · exact ih (recKey x :: seen) htail hrx hsx hkey

/-- Deduplication does not change a list whose keys are already pairwise
distinct and disjoint from `seen`. -/
theorem dedupAux_eq_self :
    ∀ (l : List RawRecord) (seen),
      l.Pairwise (fun a b => recKey a ≠ recKey b) →
      (∀ r ∈ l, recKey r ∉ seen) → dedupAux seen l = l := by
  intro l
  induction l with
  | nil => intro seen _ _; rfl
  | cons x xs ih =>
    intro seen hpw hseen
    unfold dedupAux
    rw [if_neg (hseen x (List.mem_cons_self _ _))]
    congr 1
    refine ih (recKey x :: seen) (List.pairwise_cons.mp hpw).2 ?_
    intro r hr hc
    rcases List.mem_cons.mp hc with hc | hc
    · exact (List.pairwise_cons.mp hpw).1 r hr hc.symm
    · exact hseen r (List.mem_cons_of_mem x hr) hc

/-- Re-standardizing preserves completeness of a record. -/
theorem completeB_stdRec (r : RawRecord) : completeB (stdRec r) = completeB r := by
  cases hb : r.branch <;> simp [completeB, stdRec, hb]

/-- `save_data` on a non-empty input persists the cleaned pipeline output. -/
theorem save_data_eq {data : List RawRecord} (h : data ≠ []) :
    save_data data = some (pipeline data) := by
  unfold save_data
  rw [if_neg (fun hc => h (List.isEmpty_iff.mp hc))]

/-- Every persisted record is one of the processed (dropped + re-classified)
input records. -/
theorem mem_processed_of_mem_pipeline {r : RawRecord} {data : List RawRecord}
    (h : r ∈ pipeline data) : r ∈ processedRecords data := by
  unfold pipeline at h
  have h1 : r ∈ dedupRecords (List.insertionSort rDesc (processedRecords data)) :=
    (List.perm_insertionSort finalLe _).subset h
  have h2 := mem_of_mem_dedupAux _ [] h1
  exact (List.perm_insertionSort rDesc _).subset h2

/-- Every processed record is complete. -/
theorem completeB_of_mem_processed {r : RawRecord} {data : List RawRecord}
    (h : r ∈ processedRecords data) : completeB r = true := by
  unfold processedRecords at h
  obtain ⟨r₀, hr₀, rfl⟩ := List.mem_map.mp h
  rw [completeB_stdRec]
  exact (List.mem_filter.mp hr₀).2

/-- The persisted dataset has pairwise distinct deduplication keys. -/
theorem pipeline_pairwise_keys (data : List RawRecord) :
    (pipeline data).Pairwise (fun a b => recKey a ≠ recKey b) := by
  unfold pipeline
  exact ((List.perm_insertionSort finalLe _).pairwise_iff
    (fun h => Ne.symm h)).mpr (dedupAux_pairwise _ [])

/-- Each persisted record carries the maximal cutoff among the processed
records sharing its key. -/
theorem pipeline_max (data : List RawRecord) {r : RawRecord} (hr : r ∈ pipeline data) :
    ∀ s ∈ processedRecords data, recKey s = recKey r → cutK s ≤ cutK r := by
  unfold pipeline at hr
  have h1 : r ∈ dedupRecords (List.insertionSort rDesc (processedRecords data)) :=
    (List.perm_insertionSort finalLe _).subset hr
  intro s hs hk
  have hs2 : s ∈ List.insertionSort rDesc (processedRecords data) :=
    (List.perm_insertionSort rDesc _).mem_iff.mpr hs
  exact dedupAux_max _ [] (List.sorted_insertionSort rDesc _) h1 hs2 hk

/-- The persisted dataset is sorted by the final display ordering. -/
theorem pipeline_sorted (data : List RawRecord) : (pipeline data).Sorted finalLe :=
  List.sorted_insertionSort finalLe _

/-- Claim C1: after `save_data` runs on any non-empty input record sequence,
every persisted record has its `college`, `branch` and `cutoff_percentile`
fields present; the key `(college, branch, category)` is pairwise distinct
across persisted records; every persisted record is one of the processed
(re-classified) input records and its cutoff is maximal among the processed
input records sharing its key; and the persisted records are sorted by
cutoff percentile descending, then college ascending, then branch
ascending. -/
theorem claim_C1 (data : List RawRecord) (h : data ≠ []) :
    ∃ out, save_data data = some out ∧
      (∀ r ∈ out, completeB r = true) ∧
      out.Pairwise (fun a b => recKey a ≠ recKey b) ∧
      (∀ r ∈ out, r ∈ processedRecords data ∧
        ∀ s ∈ processedRecords data, recKey s = recKey r → cutK s ≤ cutK r) ∧
      out.Sorted finalLe := by
  refine ⟨pipeline data, save_data_eq h, ?_, pipeline_pairwise_keys data, ?_,
    pipeline_sorted data⟩
  · intro r hr
    exact completeB_of_mem_processed (mem_processed_of_mem_pipeline hr)
  · intro r hr
    exact ⟨mem_processed_of_mem_pipeline hr, pipeline_max data hr⟩

/-- Witness for claim C1 at the concrete one-record input `[sampleRaw]`. -/
theorem claim_C1_witness :
    ([sampleRaw] : List RawRecord) ≠ [] ∧
    ∃ out, save_data [sampleRaw] = some out ∧
      (∀ r ∈ out, completeB r = true) ∧
      out.Pairwise (fun a b => recKey a ≠ recKey b) ∧
      (∀ r ∈ out, r ∈ processedRecords [sampleRaw] ∧
        ∀ s ∈ processedRecords [sampleRaw], recKey s = recKey r → cutK s ≤ cutK r) ∧
      out.Sorted finalLe :=
  ⟨List.cons_ne_nil _ _, claim_C1 [sampleRaw] (List.cons_ne_nil _ _)⟩

/-- Re-standardizing a record twice equals re-standardizing it once. -/
theorem stdRec_stdRec (r : RawRecord) : stdRec (stdRec r) = stdRec r := by
  cases hb : r.branch <;> simp [stdRec, hb, standardize_idem]

/-- Every processed record is fixed by branch re-standardization. -/
theorem stdRec_fixed_of_mem_processed {r : RawRecord} {data : List RawRecord}
    (hr : r ∈ processedRecords data) : stdRec r = r := by
  unfold processedRecords at hr
  obtain ⟨r₀, _, rfl⟩ := List.mem_map.mp hr
  exact stdRec_stdRec r₀

/-- Mapping a function that fixes every member of a list is the identity. -/
theorem map_eq_self_of_mem {α : Type} {l : List α} {f : α → α}
    (h : ∀ a ∈ l, f a = a) : l.map f = l :=
  (List.map_congr_left h).trans (List.map_id l)

/-- Dropping incomplete records and re-classifying branches leaves any list
of complete, already-standardized records unchanged. -/
theorem processedRecords_eq_self {l : List RawRecord}
    (h1 : ∀ r ∈ l, completeB r = true) (h2 : ∀ r ∈ l, stdRec r = r) :
    processedRecords l = l := by
  unfold processedRecords
  rw [List.filter_eq_self.mpr h1]
  exact map_eq_self_of_mem h2

/-- Dropping incomplete records and re-classifying branches leaves the
persisted dataset unchanged. -/
theorem processed_pipeline (data : List RawRecord) :
    processedRecords (pipeline data) = pipeline data :=
  processedRecords_eq_self
    (fun _ hr => completeB_of_mem_processed (mem_processed_of_mem_pipeline hr))
    (fun _ hr => stdRec_fixed_of_mem_processed (mem_processed_of_mem_pipeline hr))

/-- The cutoff-descending sort leaves the persisted dataset unchanged. -/
theorem sortDesc_pipeline (data : List RawRecord) :
    List.insertionSort rDesc (pipeline data) = pipeline data :=
  List.Sorted.insertionSort_eq
    ((pipeline_sorted data).imp (fun h => finalLe_imp_rDesc h))

/-- Deduplication leaves the persisted dataset unchanged. -/
theorem dedup_pipeline (data : List RawRecord) :
    dedupRecords (pipeline data) = pipeline data :=
  dedupAux_eq_self _ [] (pipeline_pairwise_keys data) (fun _ _ => List.not_mem_nil _)

/-- The final display sort leaves the persisted dataset unchanged. -/
theorem finalSort_pipeline (data : List RawRecord) :
    List.insertionSort finalLe (pipeline data) = pipeline data :=
  List.Sorted.insertionSort_eq (pipeline_sorted data)

/-- Under the deterministic (stable-sort) model the pipeline is exactly
idempotent. -/
theorem pipeline_idem (data : List RawRecord) :
    pipeline (pipeline data) = pipeline data := by
  have hexp : pipeline (pipeline data)
      = List.insertionSort finalLe
          (dedupRecords (List.insertionSort rDesc (processedRecords (pipeline data)))) := rfl
  rw [hexp, processed_pipeline, sortDesc_pipeline, dedup_pipeline, finalSort_pipeline]

/-- The stable-sort pipeline is one admissible run of the pipeline's
contract. -/
theorem pipelineRun_pipeline (data : List RawRecord) :
    PipelineRun data (pipeline data) :=
  ⟨List.insertionSort rDesc (processedRecords data),
   List.perm_insertionSort rDesc _,
   List.sorted_insertionSort rDesc _,
   List.perm_insertionSort finalLe _,
   pipeline_sorted data⟩

/-- Every record of an admissible run's output is a processed input record. -/
theorem pipelineRun_mem_processed {data out : List RawRecord}
    (h : PipelineRun data out) : ∀ r ∈ out, r ∈ processedRecords data := by
  obtain ⟨mid, hpm, _, hpo, _⟩ := h
  intro r hr
  exact hpm.subset (mem_of_mem_dedupAux _ [] (hpo.subset hr))

/-- Every admissible run's output has pairwise distinct deduplication keys. -/
theorem pipelineRun_pairwise_keys {data out : List RawRecord}
    (h : PipelineRun data out) :
    out.Pairwise (fun a b => recKey a ≠ recKey b) := by
  obtain ⟨mid, _, _, hpo, _⟩ := h
  exact (hpo.pairwise_iff (fun hne => Ne.symm hne)).mpr (dedupAux_pairwise _ [])

/-- Dropping incomplete records and re-classifying branches leaves any
admissible run's output unchanged. -/
theorem processedRecords_of_run {data out : List RawRecord}
    (h : PipelineRun data out) : processedRecords out = out :=
  processedRecords_eq_self
    (fun r hr => completeB_of_mem_processed (pipelineRun_mem_processed h r hr))
    (fun r hr => stdRec_fixed_of_mem_processed (pipelineRun_mem_processed h r hr))

/-- Any admissible second run returns a permutation of the first run's
output. -/
theorem pipelineRun_idem_perm {data out out2 : List RawRecord}
    (h1 : PipelineRun data out) (h2 : PipelineRun out out2) : out2.Perm out := by
  obtain ⟨mid2, hpm2, _, hpo2, _⟩ := h2
  rw [processedRecords_of_run h1] at hpm2
  have hpw : mid2.Pairwise (fun a b => recKey a ≠ recKey b) :=
    (hpm2.pairwise_iff (fun hne => Ne.symm hne)).mpr (pipelineRun_pairwise_keys h1)
  have hded : dedupRecords mid2 = mid2 :=
    dedupAux_eq_self _ [] hpw (fun _ _ => List.not_mem_nil _)
  rw [hded] at hpo2
  exact hpo2.trans hpm2

/-- Two records each preceding the other in the final display order tie on
every sort key. -/
theorem tie_of_finalLe_both {a b : RawRecord} (h1 : finalLe a b) (h2 : finalLe b a) :
    sortKeysTie a b := by
  unfold finalLe at h1 h2
  have ecut : cutK a = cutK b := by
    rcases h1 with h1 | ⟨e1, _⟩
    · rcases h2 with h2 | ⟨e2, _⟩
      · exact absurd h1 (lt_asymm h2)
      · exact e2
    · exact e1.symm
  have hi1 : innerLe a b := by
    rcases h1 with h1 | ⟨_, hi⟩
    · exact absurd h1 (by rw [ecut]; exact lt_irrefl _)
    · exact hi
  have hi2 : innerLe b a := by
    rcases h2 with h2 | ⟨_, hi⟩
    · exact absurd h2 (by rw [ecut]; exact lt_irrefl _)
    · exact hi
  unfold innerLe at hi1 hi2
  have ecol : colK a = colK b := by
    rcases hi1 with hc | ⟨ec, _⟩
    · rcases hi2 with hc2 | ⟨ec2, _⟩
      · exact absurd hc (lt_asymm hc2)
      · exact ec2.symm
    · exact ec
  have ebra : braK a = braK b := by
    have hb1 : braK a ≤ braK b := by
      rcases hi1 with hc | ⟨_, hb⟩
      · exact absurd hc (by rw [ecol]; exact lt_irrefl _)
      · exact hb
    have hb2 : braK b ≤ braK a := by
      rcases hi2 with hc | ⟨_, hb⟩
      · exact absurd hc (by rw [ecol]; exact lt_irrefl _)
      · exact hb
    exact le_antisymm hb1 hb2
  exact ⟨ecut, ecol, ebra⟩

/-- Two display-sorted permutations of each other coincide when no two of
their records tie on all sort keys. -/
theorem eq_of_perm_sorted_no_tie :
    ∀ {l1 l2 : List RawRecord}, l1.Perm l2 → l1.Sorted finalLe → l2.Sorted finalLe →
      l1.Pairwise (fun a b => ¬ sortKeysTie a b) → l1 = l2 := by
  intro l1
  induction l1 with
  | nil =>
    intro l2 hp _ _ _
    exact (List.length_eq_zero.mp hp.length_eq.symm).symm
  | cons x xs ih =>
    intro l2 hp hs1 hs2 hpw
    cases l2 with
    | nil => exact absurd hp.length_eq (by simp)
    | cons y ys =>
      by_cases hxy : x = y
      · subst hxy
        rw [ih (hp.cons_inv) (List.sorted_cons.mp hs1).2 (List.sorted_cons.mp hs2).2
          (List.pairwise_cons.mp hpw).2]
      · exfalso
        have hyxs : y ∈ xs := by
          rcases List.mem_cons.mp (hp.symm.subset (List.mem_cons_self y ys)) with h | h
          · exact absurd h.symm hxy
          · exact h
        have hxys : x ∈ ys := by
          rcases List.mem_cons.mp (hp.subset (List.mem_cons_self x xs)) with h | h
          · exact absurd h hxy
          · exact h
        exact (List.pairwise_cons.mp hpw).1 y hyxs
          (tie_of_finalLe_both ((List.sorted_cons.mp hs1).1 y hyxs)
            ((List.sorted_cons.mp hs2).1 x hxys))

/-- Claim C8 (amended): the aggregation pipeline is idempotent up to the
order of records tied on all final sort keys: the stable-sort model is
exactly idempotent and is an admissible run, and any admissible second run
on an admissible first run's output returns a permutation of that output,
again display-sorted — exactly equal whenever no two output records tie on
(cutoff, college, branch).  Pandas' unstable quicksort guarantees no more:
see `claim_C8_counterexample`. -/
theorem claim_C8 (data : List RawRecord) :
    pipeline (pipeline data) = pipeline data ∧
    PipelineRun data (pipeline data) ∧
    (∀ out out2, PipelineRun data out → PipelineRun out out2 →
      out2.Perm out ∧ out2.Sorted finalLe ∧
      (out.Pairwise (fun a b => ¬ sortKeysTie a b) → out2 = out)) := by
  refine ⟨pipeline_idem data, pipelineRun_pipeline data, ?_⟩
  intro out out2 h1 h2
  have hperm := pipelineRun_idem_perm h1 h2
  obtain ⟨_, _, _, _, hsorted2⟩ := h2
  refine ⟨hperm, hsorted2, ?_⟩
  intro hpw
  obtain ⟨_, _, _, _, hsorted1⟩ := h1
  exact eq_of_perm_sorted_no_tie hperm hsorted2 hsorted1
    ((hperm.pairwise_iff
      (fun hne ht => hne ⟨ht.1.symm, ht.2.1.symm, ht.2.2.symm⟩)).mpr hpw)

/-- Witness for claim C8 at the concrete input `[sampleRaw]`, discharging
the run and no-tie hypotheses of the third conjunct at the stable runs. -/
theorem claim_C8_witness :
    PipelineRun [sampleRaw] (pipeline [sampleRaw]) ∧
    PipelineRun (pipeline [sampleRaw]) (pipeline (pipeline [sampleRaw])) ∧
    (pipeline [sampleRaw]).Pairwise (fun a b => ¬ sortKeysTie a b) ∧
    (pipeline (pipeline [sampleRaw])).Perm (pipeline [sampleRaw]) ∧
    pipeline (pipeline [sampleRaw]) = pipeline [sampleRaw] := by
  have h := claim_C8 [sampleRaw]
  have h2 := (claim_C8 (pipeline [sampleRaw])).2.1
  have hpw : (pipeline [sampleRaw]).Pairwise (fun a b => ¬ sortKeysTie a b) := by
    rw [show pipeline [sampleRaw] = [stdRec sampleRaw] from rfl]
    exact List.pairwise_singleton _ _
  have h3 := h.2.2 (pipeline [sampleRaw]) (pipeline (pipeline [sampleRaw])) h.2.1 h2
  exact ⟨h.2.1, h2, hpw, h3.1, h3.2.2 hpw⟩

/-- Counterexample for claim C8 as frozen: on the input
`[sampleRaw, tieOther]` — two complete records tied on cutoff, college and
branch but with distinct categories, so both survive deduplication — the
pipeline's contract admits `[sampleRaw, tieOther]` as a first run's output
and, applied to that very output, also admits the differently ordered
sequence `[tieOther, sampleRaw]`: "exactly the same record sequence" is not
guaranteed by the program's unstable sort. -/
theorem claim_C8_counterexample :
    PipelineRun [sampleRaw, tieOther] [sampleRaw, tieOther] ∧
    PipelineRun [sampleRaw, tieOther] [tieOther, sampleRaw] ∧
    ([tieOther, sampleRaw] : List RawRecord) ≠ [sampleRaw, tieOther] := by
  have hstd : standardize_branch_name (txt "Computer Engineering")
      = txt "Computer Engineering" := by decide
  have hA : stdRec sampleRaw = sampleRaw := by simp [stdRec, sampleRaw, hstd]
  have hB : stdRec tieOther = tieOther := by simp [stdRec, tieOther, hstd]
  have hproc : processedRecords [sampleRaw, tieOther] = [sampleRaw, tieOther] := by
    unfold processedRecords
    rw [show List.filter completeB [sampleRaw, tieOther] = [sampleRaw, tieOther] from rfl]
    simp [hA, hB]
  have hded : dedupRecords [sampleRaw, tieOther] = [sampleRaw, tieOther] := rfl
  have hfAB : finalLe sampleRaw tieOther := by
    unfold finalLe innerLe
    exact Or.inr ⟨rfl, Or.inr ⟨rfl, le_rfl⟩⟩
  have hfBA : finalLe tieOther sampleRaw := by
    unfold finalLe innerLe
    exact Or.inr ⟨rfl, Or.inr ⟨rfl, le_rfl⟩⟩
  have hrAB : rDesc sampleRaw tieOther := le_of_eq rfl
  have hsortAB : ([sampleRaw, tieOther] : List RawRecord).Sorted finalLe := by
    refine List.pairwise_cons.mpr ⟨?_, List.pairwise_singleton _ _⟩
    intro y hy
    obtain rfl := List.mem_singleton.mp hy
    exact hfAB
  have hsortBA : ([tieOther, sampleRaw] : List RawRecord).Sorted finalLe := by
    refine List.pairwise_cons.mpr ⟨?_, List.pairwise_singleton _ _⟩
    intro y hy
    obtain rfl := List.mem_singleton.mp hy
    exact hfBA
  have hsortD : ([sampleRaw, tieOther] : List RawRecord).Sorted rDesc := by
    refine List.pairwise_cons.mpr ⟨?_, List.pairwise_singleton _ _⟩
    intro y hy
    obtain rfl := List.mem_singleton.mp hy
    exact hrAB
  refine ⟨⟨[sampleRaw, tieOther], ?_, hsortD, ?_, hsortAB⟩,
    ⟨[sampleRaw, tieOther], ?_, hsortD, ?_, hsortBA⟩, ?_⟩
  · rw [hproc]
  · rw [hded]
  · rw [hproc]
  · rw [hded]
    exact List.Perm.swap _ _ _
  · intro h
    injection h with h1 _
    exact absurd (congrArg RawRecord.category h1) (by decide)

/-- Claim C7: for every input text the Branch Classifier evaluates the
case-insensitive substring rules in the fixed priority order
computer > information technology/it > electronics+telecommunication >
mechanical > civil > electrical, returns the canonical label of the first
matching rule, and otherwise returns the input title-cased
(`standardize_branch_spec` is the claim's wording; the classifier is a pure
function, hence deterministic). -/
theorem claim_C7 (branch : Text) :
    standardize_branch_name branch = standardize_branch_spec branch := by
  unfold standardize_branch_name standardize_branch_spec
  split_ifs <;> first | rfl | exact titleStr_lowerStr branch

/-- `round4` is monotone. -/
theorem round4_mono {x y : ℚ} (h : x ≤ y) : round4 x ≤ round4 y := by
  unfold round4
  have hr : round (x * 10000) ≤ round (y * 10000) := by
    rw [round_eq, round_eq]
    exact Int.floor_le_floor (by linarith)
  have hc : ((round (x * 10000) : ℤ) : ℚ) ≤ ((round (y * 10000) : ℤ) : ℚ) := by
    exact_mod_cast hr
  linarith

/-- The pipeline output is non-empty whenever some input record is complete. -/
theorem pipeline_ne_nil {data : List RawRecord}
    (h : ∃ r ∈ data, completeB r = true) : pipeline data ≠ [] := by
  obtain ⟨r, hr, hc⟩ := h
  have h1 : stdRec r ∈ processedRecords data :=
    List.mem_map.mpr ⟨r, List.mem_filter.mpr ⟨hr, hc⟩, rfl⟩
  have h2 : stdRec r ∈ List.insertionSort rDesc (processedRecords data) :=
    (List.perm_insertionSort rDesc _).mem_iff.mpr h1
  have h3 : dedupRecords (List.insertionSort rDesc (processedRecords data)) ≠ [] := by
    cases hl : List.insertionSort rDesc (processedRecords data) with
    | nil => rw [hl] at h2; exact absurd h2 (List.not_mem_nil _)
    | cons x xs =>
      unfold dedupRecords dedupAux
      rw [if_neg (List.not_mem_nil _)]
      exact List.cons_ne_nil _ _
  intro hnil
  have hperm : ([] : List RawRecord).Perm
      (dedupRecords (List.insertionSort rDesc (processedRecords data))) := by
    have hp := List.perm_insertionSort finalLe
      (dedupRecords (List.insertionSort rDesc (processedRecords data)))
    rw [show List.insertionSort finalLe
        (dedupRecords (List.insertionSort rDesc (processedRecords data)))
        = pipeline data from rfl, hnil] at hp
    exact hp
  exact h3 (List.length_eq_zero.mp hperm.length_eq.symm)

/-- Claim C9: if live scraping yields zero records, the run uses the mock
generator: for every perturbation function bounded by `[0, 1.5]`, each
generated record pairs a roster college with a roster branch and carries
cutoff `round4 (clamp (base - noise))`, category `General` and source
`mock_data`; all roster pairs are generated; and the run persists a
non-empty dataset. -/
theorem claim_C9 (noise : Text → Text → ℚ)
    (_hn : ∀ c b, 0 ≤ noise c b ∧ noise c b ≤ 1.5) :
    (∀ r ∈ generate_mock_data noise, ∃ c ∈ mockColleges, ∃ b ∈ mockBranches,
      r.college = some c ∧ r.branch = some b ∧
      r.cutoff_percentile
        = some (round4 (max 85 (min 99.9 (get_base_percentile c b - noise c b)))) ∧
      r.category = some (txt "General") ∧ r.source = some (txt "mock_data")) ∧
    (∀ c ∈ mockColleges, ∀ b ∈ mockBranches,
      mkMockRecord c b (noise c b) ∈ generate_mock_data noise) ∧
    (∃ out, runScraper [] noise = some out ∧ out ≠ []) := by
  have hmemgen : ∀ c ∈ mockColleges, ∀ b ∈ mockBranches,
      mkMockRecord c b (noise c b) ∈ generate_mock_data noise := by
    intro c hc b hb
    unfold generate_mock_data
    exact List.mem_flatMap.mpr ⟨c, hc, List.mem_map.mpr ⟨b, hb, rfl⟩⟩
  refine ⟨?_, hmemgen, ?_⟩
  · intro r hr
    unfold generate_mock_data at hr
    obtain ⟨c, hc, hr2⟩ := List.mem_flatMap.mp hr
    obtain ⟨b, hb, rfl⟩ := List.mem_map.mp hr2
    exact ⟨c, hc, b, hb, rfl, rfl, rfl, rfl, rfl⟩
  · have hmem : mkMockRecord (txt "Veermata Jijabai Technological Institute (VJTI), Mumbai")
        (txt "Computer Engineering")
        (noise (txt "Veermata Jijabai Technological Institute (VJTI), Mumbai")
          (txt "Computer Engineering")) ∈ generate_mock_data noise := by
      refine hmemgen _ ?_ _ ?_
      · simp [mockColleges]
      · simp [mockBranches]
    have hne : generate_mock_data noise ≠ [] := List.ne_nil_of_mem hmem
    refine ⟨pipeline (generate_mock_data noise), ?_,
      pipeline_ne_nil ⟨_, hmem, rfl⟩⟩
    have hrun : runScraper [] noise = save_data (generate_mock_data noise) := rfl
    rw [hrun, save_data_eq hne]

/-- Witness for claim C9 at the concrete perturbation `zeroNoise`. -/
theorem claim_C9_witness :
    (∀ c b, 0 ≤ zeroNoise c b ∧ zeroNoise c b ≤ 1.5) ∧
    (∃ out, runScraper [] zeroNoise = some out ∧ out ≠ []) :=
  ⟨fun c b => ⟨le_refl 0, by norm_num [zeroNoise]⟩,
   (claim_C9 zeroNoise (fun c b => ⟨le_refl 0, by norm_num [zeroNoise]⟩)).2.2⟩

/-- The two clamp orders agree. -/
theorem clamp_comm (x : ℚ) : max 0 (min 100 x) = min 100 (max 0 x) := by
  simp only [min_def, max_def]
  split_ifs <;> linarith

/-- Rounding preserves zero. -/
theorem round4_zero : round4 0 = 0 := by norm_num [round4, round_eq]

/-- Rounding preserves one hundred. -/
theorem round4_hundred : round4 100 = 100 := by norm_num [round4, round_eq]

/-- On a positive rank, the estimator computes the rounded clamped formula. -/
theorem rank_to_percentile_pos {r : ℤ} (h : 0 < r) :
    rank_to_percentile r
      = round4 (max 0 (min 100 ((1 - (r : ℚ) / 350000) * 100))) := by
  unfold rank_to_percentile
  rw [if_neg (by omega)]

/-- The estimated percentile is non-negative. -/
theorem rank_to_percentile_nonneg (r : ℤ) : 0 ≤ rank_to_percentile r := by
  unfold rank_to_percentile
  split_ifs with h
  · norm_num
  · calc (0 : ℚ) = round4 0 := round4_zero.symm
    _ ≤ _ := round4_mono (le_max_left 0 _)

/-- The estimated percentile is at most one hundred. -/
theorem rank_to_percentile_le_hundred (r : ℤ) : rank_to_percentile r ≤ 100 := by
  unfold rank_to_percentile
  split_ifs with h
  · norm_num
  · calc round4 (max 0 (min 100 ((1 - (r : ℚ) / 350000) * 100)))
        ≤ round4 100 := round4_mono (max_le (by norm_num) (min_le_left _ _))
    _ = 100 := round4_hundred

/-- The estimated percentile is non-increasing in the rank. -/
theorem rank_to_percentile_antitone {r s : ℤ} (h : r ≤ s) :
    rank_to_percentile s ≤ rank_to_percentile r := by
  by_cases hs : s ≤ 0
  · have hr : r ≤ 0 := le_trans h hs
    rw [show rank_to_percentile s = 100 from by unfold rank_to_percentile; rw [if_pos hs],
      show rank_to_percentile r = 100 from by unfold rank_to_percentile; rw [if_pos hr]]
  · by_cases hr : r ≤ 0
    · rw [show rank_to_percentile r = 100 from by unfold rank_to_percentile; rw [if_pos hr]]
      exact rank_to_percentile_le_hundred s
    · rw [rank_to_percentile_pos (by omega), rank_to_percentile_pos (by omega)]
      apply round4_mono
      have hcast : (r : ℚ) ≤ (s : ℚ) := by exact_mod_cast h
      have hdiv : (r : ℚ) / 350000 ≤ (s : ℚ) / 350000 :=
        (div_le_div_iff_of_pos_right (by norm_num)).mpr hcast
      exact max_le_max le_rfl (min_le_min le_rfl (by linarith))

/-- Claim C3: for positive ranks the Percentile Estimator returns
`round4 (min 100 (max 0 ((1 - r/350000) * 100)))`, for ranks ≤ 0 it returns
100; its value always lies in `[0, 100]` and it is monotonically
non-increasing in the rank. -/
theorem claim_C3 (r : ℤ) :
    (0 < r → rank_to_percentile r = percentileSpecFormula r) ∧
    (r ≤ 0 → rank_to_percentile r = 100) ∧
    0 ≤ rank_to_percentile r ∧ rank_to_percentile r ≤ 100 ∧
    (∀ s : ℤ, r ≤ s → rank_to_percentile s ≤ rank_to_percentile r) := by
  refine ⟨fun h => ?_, fun h => ?_, rank_to_percentile_nonneg r,
    rank_to_percentile_le_hundred r, fun s hs => rank_to_percentile_antitone hs⟩
  · rw [rank_to_percentile_pos h]
    unfold percentileSpecFormula
    rw [clamp_comm]
  · unfold rank_to_percentile
    rw [if_pos h]

/-- Witness for claim C3 at ranks 7, −3 and the pair 2 ≤ 3. -/
theorem claim_C3_witness :
    ((0:ℤ) < 7 ∧ rank_to_percentile 7 = percentileSpecFormula 7) ∧
    ((-3:ℤ) ≤ 0 ∧ rank_to_percentile (-3) = 100) ∧
    ((2:ℤ) ≤ 3 ∧ rank_to_percentile 3 ≤ rank_to_percentile 2) :=
  ⟨⟨by decide, (claim_C3 7).1 (by decide)⟩,
   ⟨by decide, (claim_C3 (-3)).2.1 (by decide)⟩,
   ⟨by decide, (claim_C3 2).2.2.2.2 3 (by decide)⟩⟩

/-- Claim C4: the Admission-Chance Estimator always returns one of the five
fixed labels, chosen by the first matching threshold in the fixed order,
and the mapping is monotone: a larger percentile difference never yields a
strictly worse label. -/
theorem claim_C4 (u c : ℚ) :
    predict_admission_chance u c ∈ chanceLabels ∧
    (∀ u2 c2 : ℚ, u - c ≤ u2 - c2 →
      chanceRank (predict_admission_chance u c)
        ≤ chanceRank (predict_admission_chance u2 c2)) := by
  constructor
  · unfold predict_admission_chance
    split_ifs <;> simp [chanceLabels]
  · intro u2 c2 h
    unfold predict_admission_chance
    split_ifs <;> first | decide | (exfalso; linarith)

/-- Witness for claim C4 at the percentile pairs (93, 91) and (95, 91). -/
theorem claim_C4_witness :
    predict_admission_chance 93 91 ∈ chanceLabels ∧
    ((93:ℚ) - 91 ≤ 95 - 91 ∧
     chanceRank (predict_admission_chance 93 91)
       ≤ chanceRank (predict_admission_chance 95 91)) :=
  ⟨(claim_C4 93 91).1, by norm_num, (claim_C4 93 91).2 95 91 (by norm_num)⟩

/-- Rank 24500 maps to percentile 93 under the default candidate pool. -/
theorem rank_to_percentile_24500 : rank_to_percentile 24500 = 93 := by
  rw [rank_to_percentile_pos (by decide)]
  norm_num [round4, round_eq, min_def, max_def]

/-- Members of the General-category filter. -/
theorem mem_generalOnly {r : AppRecord} {d : List AppRecord} (h : r ∈ generalOnly d) :
    r ∈ d ∧ upperStr r.category = txt "GENERAL" := by
  unfold generalOnly at h
  have h2 := List.mem_filter.mp h
  exact ⟨h2.1, by simpa using h2.2⟩

/-- Every suggested safe option is a General record of the dataset whose
cutoff is at most the user percentile. -/
theorem suggest_safe_mem (d : List AppRecord) (rank : ℤ) (limit : ℕ) :
    ∀ rec ∈ (suggest_colleges d rank limit).safe,
      rec ∈ d ∧ upperStr rec.category = txt "GENERAL" ∧
      rec.cutoff_percentile ≤ rank_to_percentile rank := by
  unfold suggest_colleges
  split_ifs <;> intro rec hrec
  · exact absurd hrec (List.not_mem_nil _)
  · exact absurd hrec (List.not_mem_nil _)
  · have h3 := List.take_subset _ _ hrec
    have h4 := (List.perm_insertionSort rDescApp _).subset h3
    have h5 := List.mem_filter.mp h4
    obtain ⟨hmem, hgen⟩ := mem_generalOnly h5.1
    exact ⟨hmem, hgen, by simpa using h5.2⟩

/-- Every suggested ambitious option is a General record of the dataset
whose cutoff exceeds the user percentile. -/
theorem suggest_ambitious_mem (d : List AppRecord) (rank : ℤ) (limit : ℕ) :
    ∀ rec ∈ (suggest_colleges d rank limit).ambitious,
      rec ∈ d ∧ upperStr rec.category = txt "GENERAL" ∧
      rank_to_percentile rank < rec.cutoff_percentile := by
  unfold suggest_colleges
  split_ifs <;> intro rec hrec
  · exact absurd hrec (List.not_mem_nil _)
  · exact absurd hrec (List.not_mem_nil _)
  · have h3 := List.take_subset _ _ hrec
    have h4 := (List.perm_insertionSort rAscApp _).subset h3
    have h5 := List.mem_filter.mp h4
    obtain ⟨hmem, hgen⟩ := mem_generalOnly h5.1
    exact ⟨hmem, hgen, by simpa using h5.2⟩

/-- The safe list is sorted by descending cutoff. -/
theorem suggest_safe_sorted (d : List AppRecord) (rank : ℤ) (limit : ℕ) :
    (suggest_colleges d rank limit).safe.Sorted rDescApp := by
  unfold suggest_colleges
  split_ifs
  · exact List.sorted_nil
  · exact List.sorted_nil
  · exact List.Pairwise.sublist (List.take_sublist _ _)
      (List.sorted_insertionSort rDescApp _)

/-- The ambitious list is sorted by ascending cutoff. -/
theorem suggest_ambitious_sorted (d : List AppRecord) (rank : ℤ) (limit : ℕ) :
    (suggest_colleges d rank limit).ambitious.Sorted rAscApp := by
  unfold suggest_colleges
  split_ifs
  · exact List.sorted_nil
  · exact List.sorted_nil
  · exact List.Pairwise.sublist (List.take_sublist _ _)
      (List.sorted_insertionSort rAscApp _)

/-- Both suggestion lists are truncated to the limit. -/
theorem suggest_lengths (d : List AppRecord) (rank : ℤ) (limit : ℕ) :
    (suggest_colleges d rank limit).safe.length ≤ limit ∧
    (suggest_colleges d rank limit).ambitious.length ≤ limit := by
  unfold suggest_colleges
  split_ifs
  · exact ⟨Nat.zero_le _, Nat.zero_le _⟩
  · exact ⟨Nat.zero_le _, Nat.zero_le _⟩
  · exact ⟨List.length_take_le _ _, List.length_take_le _ _⟩

/-- On a non-empty dataset the reported percentile comes from the
Percentile Estimator. -/
theorem suggest_percentile_of_ne_nil {d : List AppRecord} (rank : ℤ) (limit : ℕ)
    (h : d ≠ []) :
    (suggest_colleges d rank limit).user_percentile = rank_to_percentile rank := by
  unfold suggest_colleges
  rw [if_neg (fun hc => h (List.isEmpty_iff.mp hc))]
  split_ifs <;> rfl

/-- Completeness of the suggestion lists: `safe` is exactly the
General-filtered records at or below the user percentile, sorted descending
and truncated, and `ambitious` is exactly those above it, sorted ascending
and truncated — in every branch of the code, including the two early
returns. -/
theorem suggest_lists_eq (d : List AppRecord) (rank : ℤ) (limit : ℕ) :
    (suggest_colleges d rank limit).safe
      = (List.insertionSort rDescApp ((generalOnly d).filter
          (fun r => r.cutoff_percentile ≤ rank_to_percentile rank))).take limit ∧
    (suggest_colleges d rank limit).ambitious
      = (List.insertionSort rAscApp ((generalOnly d).filter
          (fun r => rank_to_percentile rank < r.cutoff_percentile))).take limit := by
  unfold suggest_colleges
  split_ifs with h1 h2
  · have hd : d = [] := List.isEmpty_iff.mp h1
    subst hd
    constructor <;> simp [generalOnly]
  · have hg : generalOnly d = [] := List.isEmpty_iff.mp h2
    rw [hg]
    constructor <;> simp
  · exact ⟨rfl, rfl⟩

/-- The scenario evaluation of the Suggestion Engine: `[VJTI 96.5, CoEP 91.2]`
at rank 24500 (percentile 93) yields safe `[CoEP]`, ambitious `[VJTI]`. -/
theorem suggest_scenario :
    suggest_colleges scenarioData 24500 7 = ⟨[coepRec], [vjtiRec], 93⟩ := by
  have hgen : generalOnly scenarioData = scenarioData := rfl
  unfold suggest_colleges
  rw [hgen, rank_to_percentile_24500]
  rw [if_neg (by decide), if_neg (by decide)]
  have hs : scenarioData.filter (fun r => decide (r.cutoff_percentile ≤ (93:ℚ)))
      = [coepRec] := by
    simp only [scenarioData, List.filter_cons, List.filter_nil, vjtiRec, coepRec]
    norm_num
  have ha : scenarioData.filter (fun r => decide ((93:ℚ) < r.cutoff_percentile))
      = [vjtiRec] := by
    simp only [scenarioData, List.filter_cons, List.filter_nil, vjtiRec, coepRec]
    norm_num
  rw [hs, ha]
  rfl

/-- Claim C2 (amended): for every positive rank and every dataset the
Suggestion Engine returns safe equal to the General-filtered records with
cutoff at most the user percentile, sorted by cutoff descending and
truncated to the first 7, and ambitious equal to the General-filtered
records with cutoff above the user percentile, sorted ascending and
truncated to the first 7 (so in particular every returned record qualifies,
the lists are sorted and have at most 7 entries); the reported user
percentile comes from the Percentile Estimator whenever the dataset is
non-empty (on an empty dataset it is reported as 0); and on the scenario
dataset at rank 24500 (percentile 93.0) it returns safe `[CoEP]` and
ambitious `[VJTI]`. -/
theorem claim_C2 (rank : ℤ) (d : List AppRecord) (_hr : 0 < rank) :
    (suggest_colleges d rank 7).safe
      = (List.insertionSort rDescApp ((generalOnly d).filter
          (fun r => r.cutoff_percentile ≤ rank_to_percentile rank))).take 7 ∧
    (suggest_colleges d rank 7).ambitious
      = (List.insertionSort rAscApp ((generalOnly d).filter
          (fun r => rank_to_percentile rank < r.cutoff_percentile))).take 7 ∧
    (∀ rec ∈ (suggest_colleges d rank 7).safe,
      rec ∈ d ∧ upperStr rec.category = txt "GENERAL" ∧
      rec.cutoff_percentile ≤ rank_to_percentile rank) ∧
    (∀ rec ∈ (suggest_colleges d rank 7).ambitious,
      rec ∈ d ∧ upperStr rec.category = txt "GENERAL" ∧
      rank_to_percentile rank < rec.cutoff_percentile) ∧
    (suggest_colleges d rank 7).safe.Sorted rDescApp ∧
    (suggest_colleges d rank 7).ambitious.Sorted rAscApp ∧
    (suggest_colleges d rank 7).safe.length ≤ 7 ∧
    (suggest_colleges d rank 7).ambitious.length ≤ 7 ∧
    (d ≠ [] → (suggest_colleges d rank 7).user_percentile = rank_to_percentile rank) ∧
    (d = [] → (suggest_colleges d rank 7).user_percentile = 0) ∧
    suggest_colleges scenarioData 24500 7 = ⟨[coepRec], [vjtiRec], 93⟩ :=
  ⟨(suggest_lists_eq d rank 7).1, (suggest_lists_eq d rank 7).2,
   suggest_safe_mem d rank 7, suggest_ambitious_mem d rank 7,
   suggest_safe_sorted d rank 7, suggest_ambitious_sorted d rank 7,
   (suggest_lengths d rank 7).1, (suggest_lengths d rank 7).2,
   fun h => suggest_percentile_of_ne_nil rank 7 h,
   fun h => by rw [h]; rfl,
   suggest_scenario⟩

/-- Witness for claim C2 at rank 24500 on the scenario dataset. -/
theorem claim_C2_witness :
    (0:ℤ) < 24500 ∧ suggest_colleges scenarioData 24500 7 = ⟨[coepRec], [vjtiRec], 93⟩ :=
  ⟨by decide, (claim_C2 24500 scenarioData (by decide)).2.2.2.2.2.2.2.2.2.2⟩

/-- Counterexample for claim C2 as frozen: on the empty dataset the code
reports user percentile 0, not the Percentile Estimator's value 93. -/
theorem claim_C2_counterexample :
    (suggest_colleges [] 24500 7).user_percentile = 0 ∧
    rank_to_percentile 24500 = 93 ∧ (0 : ℚ) ≠ 93 :=
  ⟨rfl, rank_to_percentile_24500, by norm_num⟩

/-- The head of the descending sort carries the maximal cutoff. -/
theorem sortDescApp_head {M : List AppRecord} {best : AppRecord} {rest : List AppRecord}
    (h : List.insertionSort rDescApp M = best :: rest) :
    best ∈ M ∧ ∀ s ∈ M, s.cutoff_percentile ≤ best.cutoff_percentile := by
  have hperm := List.perm_insertionSort rDescApp M
  rw [h] at hperm
  refine ⟨hperm.subset (List.mem_cons_self _ _), ?_⟩
  intro s hs
  have hs2 : s ∈ best :: rest := hperm.mem_iff.mpr hs
  rcases List.mem_cons.mp hs2 with he | hr2
  · exact le_of_eq (by rw [he])
  · have hsorted := List.sorted_insertionSort rDescApp M
    rw [h] at hsorted
    exact (List.pairwise_cons.mp hsorted).1 s hr2

/-- The scenario evaluation of the Predict operation: percentile 90 against
the query `VJTI` on the scenario dataset is answered `Unlikely`. -/
theorem predict_scenario :
    handle_predict (some 90) (txt "VJTI") scenarioData
      = PredictResult.ok (txt "VJTI") (txt "Computer Engineering") 96.5 (txt "Unlikely") := by
  have hchance : predict_admission_chance 90 (96.5 : ℚ) = txt "Unlikely" := by
    unfold predict_admission_chance
    norm_num
  simp only [handle_predict]
  rw [if_neg (by push_neg; exact ⟨by decide, by norm_num⟩)]
  rw [show scenarioData.filter (fun r => matchesQuery (stripText (txt "VJTI")) r)
      = [vjtiRec] from rfl]
  rw [show List.insertionSort rDescApp [vjtiRec] = [vjtiRec] from rfl]
  show PredictResult.ok vjtiRec.college vjtiRec.branch vjtiRec.cutoff_percentile
      (predict_admission_chance 90 vjtiRec.cutoff_percentile)
    = PredictResult.ok (txt "VJTI") (txt "Computer Engineering") 96.5 (txt "Unlikely")
  rw [show vjtiRec.cutoff_percentile = (96.5:ℚ) from rfl, hchance]
  rfl

/-- Claim C5 (amended): for every positive percentile and every query whose
stripped text is non-empty and free of regular-expression metacharacters
(pandas `str.contains` interprets the query as a regex; on such queries it
is exactly case-insensitive literal substring containment, which is what
`matchesQuery` computes), Predict answers not-found exactly when no dataset
record's college contains the query case-insensitively, and otherwise
reports a matching record of maximal cutoff labelled by the
Admission-Chance Estimator; Predict(90, "VJTI") on the scenario dataset is
answered "Unlikely". -/
theorem claim_C5 (p : ℚ) (qraw : Text) (d : List AppRecord)
    (hp : 0 < p) (hq : stripText qraw ≠ [])
    (_hlit : regexLiteralB (stripText qraw) = true) :
    (d.filter (fun r => matchesQuery (stripText qraw) r) = [] →
      handle_predict (some p) qraw d = PredictResult.notFound) ∧
    (d.filter (fun r => matchesQuery (stripText qraw) r) ≠ [] →
      ∃ best rest,
        List.insertionSort rDescApp (d.filter (fun r => matchesQuery (stripText qraw) r))
          = best :: rest ∧
        handle_predict (some p) qraw d
          = PredictResult.ok best.college best.branch best.cutoff_percentile
              (predict_admission_chance p best.cutoff_percentile) ∧
        best ∈ d ∧ matchesQuery (stripText qraw) best = true ∧
        (∀ s ∈ d, matchesQuery (stripText qraw) s = true →
          s.cutoff_percentile ≤ best.cutoff_percentile)) ∧
    handle_predict (some 90) (txt "VJTI") scenarioData
      = PredictResult.ok (txt "VJTI") (txt "Computer Engineering") 96.5 (txt "Unlikely") := by
  have hcond : ¬(stripText qraw = [] ∨ p ≤ 0) := by
    push_neg
    exact ⟨hq, hp⟩
  refine ⟨?_, ?_, predict_scenario⟩
  · intro hM
    simp only [handle_predict]
    rw [if_neg hcond, hM]
    rfl
  · intro hM
    cases hsort : List.insertionSort rDescApp
        (d.filter (fun r => matchesQuery (stripText qraw) r)) with
    | nil =>
      exfalso
      have hp2 := List.perm_insertionSort rDescApp
        (d.filter (fun r => matchesQuery (stripText qraw) r))
      rw [hsort] at hp2
      exact hM (List.length_eq_zero.mp hp2.length_eq.symm)
    | cons best rest =>
      obtain ⟨hbm, hmax⟩ := sortDescApp_head hsort
      have hbf := List.mem_filter.mp hbm
      refine ⟨best, rest, rfl, ?_, hbf.1, by simpa using hbf.2, ?_⟩
      · simp only [handle_predict]
        rw [if_neg hcond, hsort]
      · intro s hs hms
        exact hmax s (List.mem_filter.mpr ⟨hs, by simpa using hms⟩)

/-- Witness for claim C5 at percentile 90 and the metacharacter-free query
`VJTI`. -/
theorem claim_C5_witness :
    ((0:ℚ) < 90 ∧ stripText (txt "VJTI") ≠ [] ∧
      regexLiteralB (stripText (txt "VJTI")) = true) ∧
    handle_predict (some 90) (txt "VJTI") scenarioData
      = PredictResult.ok (txt "VJTI") (txt "Computer Engineering") 96.5 (txt "Unlikely") :=
  ⟨⟨by norm_num, by decide, by decide⟩,
   (claim_C5 90 (txt "VJTI") scenarioData (by norm_num) (by decide) (by decide)).2.2⟩

/-- Counterexample for claim C5 as frozen: at percentile 0 (as well as at a
whitespace-only query, which is a non-empty string) the code answers with
the invalid-input error without performing the lookup, although a matching
record exists. -/
theorem claim_C5_counterexample :
    handle_predict (some 0) (txt "VJTI") scenarioData = PredictResult.invalidInput ∧
    scenarioData.filter (fun r => matchesQuery (stripText (txt "VJTI")) r) ≠ [] ∧
    handle_predict (some 90) (txt " ") scenarioData = PredictResult.invalidInput ∧
    txt " " ≠ [] := by
  refine ⟨?_, by decide, ?_, by decide⟩
  · simp only [handle_predict]
    rw [if_pos (Or.inr le_rfl)]
  · simp only [handle_predict]
    rw [if_pos (Or.inl (by decide))]

/-- Claim C6 (amended): the Suggest operation answers every non-numeric or
non-positive rank with an error payload carrying only a message (no partial
result); with an empty backing dataset and a valid rank it does not signal
service-unavailable but returns a success payload with empty lists and
user percentile 0. -/
theorem claim_C6 (d : List AppRecord) (inp : Option ℤ) :
    ((inp = none ∨ ∃ rk : ℤ, inp = some rk ∧ rk ≤ 0) →
      ∃ msg, handle_suggest inp d = SuggestResponse.error msg) ∧
    (∀ rk : ℤ, 0 < rk →
      handle_suggest (some rk) ([] : List AppRecord)
        = SuggestResponse.ok ⟨[], [], 0⟩) := by
  constructor
  · rintro (rfl | ⟨rk, rfl, hrk⟩)
    · exact ⟨_, rfl⟩
    · refine ⟨txt "Please provide a valid rank.", ?_⟩
      simp only [handle_suggest]
      rw [if_pos hrk]
  · intro rk hrk
    simp only [handle_suggest]
    rw [if_neg (by omega)]
    rfl

/-- Witness for claim C6 at rank −5 (error) and rank 5 on the empty
dataset (success payload with empty lists). -/
theorem claim_C6_witness :
    (some (-5 : ℤ) = none ∨ ∃ rk : ℤ, some (-5 : ℤ) = some rk ∧ rk ≤ 0) ∧
    (∃ msg, handle_suggest (some (-5)) scenarioData = SuggestResponse.error msg) ∧
    (0 < (5:ℤ) ∧
      handle_suggest (some 5) ([] : List AppRecord) = SuggestResponse.ok ⟨[], [], 0⟩) :=
  ⟨Or.inr ⟨-5, rfl, by decide⟩,
   (claim_C6 scenarioData (some (-5))).1 (Or.inr ⟨-5, rfl, by decide⟩),
   by decide,
   (claim_C6 ([] : List AppRecord) (some 5)).2 5 (by decide)⟩

/-- Counterexample for claim C6 as frozen: with rank 5 and an empty backing
dataset the code returns a success payload, not a service-unavailable
error. -/
theorem claim_C6_counterexample :
    handle_suggest (some 5) ([] : List AppRecord) = SuggestResponse.ok ⟨[], [], 0⟩ ∧
    isErrorResponse (handle_suggest (some 5) ([] : List AppRecord)) = false :=
  ⟨rfl, rfl⟩

/-- Claim C10: the Predict operation rejects every percentile ≤ 0 with the
same invalid-input error an empty (stripped-empty) college query receives,
for every query and regardless of the dataset contents. -/
theorem claim_C10 (p : ℚ) (q : Text) (d : List AppRecord) (hp : p ≤ 0) :
    handle_predict (some p) q d = PredictResult.invalidInput ∧
    handle_predict (some 1) ([] : Text) d = PredictResult.invalidInput := by
  constructor
  · simp only [handle_predict]
    rw [if_pos (Or.inr hp)]
  · simp only [handle_predict]
    rw [if_pos (show stripText ([] : Text) = [] ∨ (1:ℚ) ≤ 0 from Or.inl rfl)]

/-- Witness for claim C10 at percentile 0, query `VJTI`, on the scenario
dataset. -/
theorem claim_C10_witness :
    (0:ℚ) ≤ 0 ∧
    handle_predict (some 0) (txt "VJTI") scenarioData = PredictResult.invalidInput :=
  ⟨le_refl 0, (claim_C10 0 (txt "VJTI") scenarioData (le_refl 0)).1⟩
